import Mathlib

/-!
Shallow embedding of the Reinsurance Analytics demo repository
(stellacydong/Reinsurance_Analytics_Demo) for specification checking.

The repository is a set of Streamlit dashboard scripts.  The computational
content embedded here is:

* `run_simulation` from `app.py` (lines 23-87): the per-round synthetic
  market generator (agent withdrawals, bids, profit / CVaR-proxy
  accumulators, dual-variable evolution, per-round reports).
* the inline round loop of `live_bidding.py` (lines 99-148), a near
  duplicate of `run_simulation` without dual variables.
* the oversight loop of `files/governance_in_loop.py` (lines 48-68).
* the Gini / fairness / efficiency formulas of `app.py` (lines 292-297,
  370-378) and `files/market_lens.py` (lines 78-88, 120-121).
* the two guarded handlers of `demo_app.py` (lines 183-196 and 380-391).

Randomness: numpy draws are modelled by an explicit tape of real numbers
consumed left to right.  Each call to `np.random.rand()` / `np.random.randn()`
consumes one tape cell (the cell holds the drawn variate; for
`np.random.uniform(a, b)` the cell holds the underlying [0,1) variate and the
draw is `a + (b - a) * u`, matching numpy's definition).  Python floats are
modelled as real numbers; `np.round(x, 2)` is modelled with Mathlib's `round`
(the models differ from numpy only in tie-breaking at exact half-cent values,
which no claim depends on).
-/

/-- State of the numpy pseudo-random generator: an infinite tape of variates
together with the position of the next draw.  `np.random.seed` fixes the tape
and resets the position. -/
structure RNG where
  tape : ℕ → ℝ
  pos : ℕ

/-- Consume one tape cell. -/
def RNG.next (g : RNG) : ℝ × RNG := (g.tape g.pos, ⟨g.tape, g.pos + 1⟩)

/-- Model of `np.random.rand()`: one uniform [0,1) draw. -/
def npRand (g : RNG) : ℝ × RNG := g.next

/-- Model of `np.random.randn()`: one standard normal draw. -/
def npRandn (g : RNG) : ℝ × RNG := g.next

/-- Model of `np.random.uniform(a, b)`: `a + (b - a) * u` for a uniform
[0,1) variate `u`. -/
def npUniform (a b : ℝ) (g : RNG) : ℝ × RNG :=
  let u := g.next
  (a + (b - a) * u.1, u.2)

/-- Model of `np.random.randn(n)`: a vector of `n` standard normal draws,
consumed in order. -/
def npRandnVec : ℕ → RNG → List ℝ × RNG
  | 0, g => ([], g)
  | n + 1, g =>
      let z := npRandn g
      let rest := npRandnVec n z.2
      (z.1 :: rest.1, rest.2)

/-- Model of `np.random.uniform(a, b, size=n)`: `n` uniform draws in order. -/
def npUniformVec (a b : ℝ) : ℕ → RNG → List ℝ × RNG
  | 0, g => ([], g)
  | n + 1, g =>
      let u := npUniform a b g
      let rest := npUniformVec a b n u.2
      (u.1 :: rest.1, rest.2)

/-- Model of `np.round(x, 2)`: round to two decimal places.  Mathlib `round`
breaks ties half-up while numpy breaks ties half-to-even; the difference is
confined to exact half-cent arguments, which no claim depends on. -/
noncomputable def np_round2 (x : ℝ) : ℝ := ((round (x * 100) : ℤ) : ℝ) / 100

/-- Model of `np.sort` (ascending). -/
noncomputable def np_sort (xs : List ℝ) : List ℝ := List.insertionSort (· ≤ ·) xs

/-- Model of `np.mean`. -/
noncomputable def np_mean (xs : List ℝ) : ℝ := xs.sum / xs.length

/-- Model of `np.std` (population standard deviation, numpy default). -/
noncomputable def np_std (xs : List ℝ) : ℝ :=
  Real.sqrt ((xs.map (fun x => (x - np_mean xs) ^ 2)).sum / xs.length)

/-- Running sum `i * x_1 + (i+1) * x_2 + ...`; with starting index 1 this is
`np.sum(np.arange(1, n+1) * xs)`. -/
noncomputable def weightedIdxSum : ℕ → List ℝ → ℝ
  | _, [] => 0
  | i, x :: xs => (i : ℝ) * x + weightedIdxSum (i + 1) xs

/-- Parameters of `run_simulation` (`app.py` line 23-24).  The
`market_scheme` string (the `scenario` argument) and `lambda_alert_threshold`
are accepted by `run_simulation` but never read in its body (the alert
threshold is only used later by the governance display in `main`). -/
structure Params where
  market_scheme : String
  bid_volatility : ℝ
  market_intensity : ℝ
  cvar_target : ℝ
  base_lambda : ℝ
  lambda_alert_threshold : ℝ
  governance_sensitivity : ℝ

/-- Per-agent mutable data of `run_simulation`: the `active_agents[i]` flag
and the `profits[i]`, `cvar_risks[i]`, `activity_counts[i]` accumulators
(`app.py` lines 25-28). -/
structure AgentState where
  active : Bool
  profit : ℝ
  cvar : ℝ
  activity : ℝ

/-- Result of one agent's turn inside a round: the updated agent state, the
entry written to `round_bids` (`none` models `np.nan`), whether the agent
withdrew in this turn, and the advanced generator. -/
structure AgentStepOut where
  state : AgentState
  bid : Option ℝ
  withdrew : Bool
  rng : RNG

/-- Dual-variable recurrence of `app.py` lines 38-40:
`base_lambda + randn * 0.3 + sin(r / 3) * governance_sensitivity`, clipped
below at `0.01` (`np.clip(lambdas, 0.01, None)`). -/
noncomputable def lambdaStep (p : Params) (r : ℕ) (z : ℝ) : ℝ :=
  max 0.01 (p.base_lambda + z * 0.3 + Real.sin ((r : ℝ) / 3) * p.governance_sensitivity)

/-- One agent's turn in a round of `run_simulation` (`app.py` lines 43-60).
An active agent first flips the withdrawal coin
`np.random.rand() < bid_volatility * (1 - cvar_target) / 2`; on withdrawal its
bid is NaN, otherwise a bid is drawn and rounded, and the profit, CVaR-proxy
and activity accumulators are updated.  An inactive agent records NaN and
consumes no randomness. -/
noncomputable def agentStep (p : Params) (lam : ℝ) (s : AgentState) (g : RNG) : AgentStepOut :=
  if s.active then
    let u := npRand g
    if u.1 < p.bid_volatility * (1 - p.cvar_target) / 2 then
      ⟨{ s with active := false }, none, true, u.2⟩
    else
      let ub := npUniform 0.8 1.2 u.2
      let z := npRandn ub.2
      let bid := np_round2 (100 * ub.1 * (1 + z.1 * p.bid_volatility * p.market_intensity))
      let up := npUniform 0.05 0.15 z.2
      let z2 := npRandn up.2
      ⟨{ s with
          profit := s.profit + bid * up.1 / (1 + lam * 0.1),
          cvar := s.cvar + max 0 (z2.1 * (1 - p.cvar_target) * 5),
          activity := s.activity + 1 },
        some bid, false, z2.2⟩
  else ⟨s, none, false, g⟩

/-- Output of the inner `for i in range(n_agents)` loop of one round: the
updated agent states, the `round_bids` agent entries in agent order, and the
0-based indices of the agents withdrawn this round (agent `i` is displayed as
`"Agent {i+1}"`). -/
structure LoopOut where
  states : List AgentState
  bids : List (Option ℝ)
  withdrawn : List ℕ

/-- The inner agent loop of a round of `run_simulation` (`app.py` lines
43-60), processing agents in index order and threading the generator.
`lambdas.getD i 0` models the array access `lambdas[i]` (the default is never
reached: the lambda vector always has one entry per agent). -/
noncomputable def agentsLoop (p : Params) (lambdas : List ℝ) :
    ℕ → List AgentState → RNG → LoopOut × RNG
  | _, [], g => (⟨[], [], []⟩, g)
  | i, s :: ss, g =>
      let o := agentStep p (lambdas.getD i 0) s g
      let rest := agentsLoop p lambdas (i + 1) ss o.rng
      (⟨o.state :: rest.1.states, o.bid :: rest.1.bids,
        (if o.withdrew then [i] else []) ++ rest.1.withdrawn⟩, rest.2)

/-- Keys of the `round_bids` dict: `"Agent {i+1}"` (0-based `i` here) or the
`"Round"` entry. -/
inductive BidKey where
  | agent (i : ℕ)
  | round
deriving DecidableEq

/-- The strict comparison Python `max` performs between keys in
`max(round_bids, key=lambda x: round_bids[x] if isinstance(round_bids[x],
(int, float)) else -1)` (`app.py` line 68, `live_bidding.py` line 137).
Since `np.nan` is a Python `float`, the `isinstance` test is true for every
entry — bids, NaN and the int round number alike — so the `else -1` branch is
dead code and the key is the entry itself.  `none` models a NaN key, and every
float comparison involving NaN is False: `nanGt a b` is the truth value of
`a > b`. -/
noncomputable def nanGt : Option ℝ → Option ℝ → Bool
  | some a, some b => decide (b < a)
  | _, _ => false

/-- `active_bids` of `app.py` line 65: the numeric, non-NaN values of
`round_bids` in insertion order — the agents' recorded bids followed by the
`"Round"` value `r + 1` (always numeric and non-NaN). -/
def activeBids (bids : List (Option ℝ)) (r : ℕ) : List ℝ :=
  bids.filterMap id ++ [(r : ℝ) + 1]

/-- Python `max` over a possibly empty list (`None` on empty input via the
`if active_bids else None` guard). -/
noncomputable def pyMax : List ℝ → Option ℝ
  | [] => none
  | x :: xs => some (xs.foldl max x)

/-- Python `min` over a possibly empty list. -/
noncomputable def pyMin : List ℝ → Option ℝ
  | [] => none
  | x :: xs => some (xs.foldl min x)

/-- Python `max(..., key=...)` over key/value pairs: a later entry replaces
the current maximum only when the strict comparison of their keys succeeds.
With NaN keys (`none`) the comparison always fails, so a NaN-keyed current
maximum is never replaced and a NaN-keyed later entry never takes over. -/
noncomputable def pyArgmax (first : BidKey × Option ℝ) :
    List (BidKey × Option ℝ) → BidKey
  | [] => first.1
  | e :: rest => if nanGt e.2 first.2 then pyArgmax e rest else pyArgmax first rest

/-- The key/value pairs of `round_bids` in insertion order: agents in index
order (a withdrawn agent's value is `none`, modelling the NaN key), then the
`"Round"` entry with value `r + 1`. -/
def bidEntries (bids : List (Option ℝ)) (r : ℕ) : List (BidKey × Option ℝ) :=
  (bids.enum.map fun e => (BidKey.agent e.1, e.2)) ++ [(BidKey.round, some ((r : ℝ) + 1))]

/-- Python `max(round_bids, key=...)` on the whole dict.  The list of entries
is never empty (it always holds the `"Round"` entry); the `[]` case is
unreachable. -/
noncomputable def pyArgmaxL : List (BidKey × Option ℝ) → BidKey
  | [] => BidKey.round
  | e :: rest => pyArgmax e rest

/-- `top_agent` of `app.py` line 68. -/
noncomputable def topAgent (bids : List (Option ℝ)) (r : ℕ) : BidKey :=
  pyArgmaxL (bidEntries bids r)

/-- The per-round report of `app.py` lines 69-75. -/
structure Report where
  round : ℕ
  highest_bid : Option ℝ
  lowest_bid : Option ℝ
  top_agent : BidKey
  withdrawn : List ℕ

/-- Builds the round report of `app.py` lines 65-75 (identical computation in
`live_bidding.py` lines 134-137).  The `"Round"` entry `r + 1` has already
been inserted into `round_bids` (line 62), so it takes part in `active_bids`
and in the `top_agent` scan. -/
noncomputable def mkReport (r : ℕ) (bids : List (Option ℝ)) (withdrawn : List ℕ) : Report :=
  { round := r + 1
    highest_bid := pyMax (activeBids bids r)
    lowest_bid := pyMin (activeBids bids r)
    top_agent := topAgent bids r
    withdrawn := withdrawn }

/-- Everything one round of `run_simulation` produces: the updated agent
states, the lambda row appended to `lambda_trace`, the bids row appended to
`bids_data` (agent entries only: `set_index("Round")` turns the `"Round"`
entry into the row index), and the round report. -/
structure RoundOut where
  states : List AgentState
  lambdas : List ℝ
  bids : List (Option ℝ)
  report : Report

/-- One round of `run_simulation` (`app.py` lines 33-76): first the
dual-variable evolution (lines 38-41, consuming `n` normal draws), then the
agent loop, then the report. -/
noncomputable def roundStep (p : Params) (n r : ℕ) (states : List AgentState) (g : RNG) :
    RoundOut × RNG :=
  let zs := npRandnVec n g
  let lambdas := zs.1.map (lambdaStep p r)
  let lo := agentsLoop p lambdas 0 states zs.2
  (⟨lo.1.states, lambdas, lo.1.bids, mkReport r lo.1.bids lo.1.withdrawn⟩, lo.2)

/-- Accumulated tables of the round loop: final agent states, `bids_data`
rows, `round_reports`, and `lambda_trace` rows, in round order. -/
structure SimAcc where
  states : List AgentState
  bidsRows : List (List (Option ℝ))
  reports : List Report
  lambdaRows : List (List ℝ)

/-- The `for r in range(n_rounds)` loop of `run_simulation`, with `k` rounds
left to run and `r` the index of the next round. -/
noncomputable def simRounds (p : Params) (n : ℕ) :
    ℕ → ℕ → List AgentState → RNG → SimAcc × RNG
  | _, 0, states, g => (⟨states, [], [], []⟩, g)
  | r, k + 1, states, g =>
      let ro := roundStep p n r states g
      let acc := simRounds p n (r + 1) k ro.1.states ro.2
      (⟨acc.1.states, ro.1.bids :: acc.1.bidsRows,
        ro.1.report :: acc.1.reports, ro.1.lambdas :: acc.1.lambdaRows⟩, acc.2)

/-- One row of the summary dataframe of `app.py` lines 79-84. -/
structure SummaryRow where
  profit : ℝ
  cvar : ℝ
  activityRate : ℝ

/-- The four return values of `run_simulation` (`app.py` line 87). -/
structure SimOutput where
  bids_df : List (List (Option ℝ))
  summary : List SummaryRow
  round_reports : List Report
  dual_var_df : List (List ℝ)

/-- `run_simulation` of `app.py` lines 23-87: all agents start active with
zero accumulators, the round loop runs `n_rounds` times, and the summary row
of agent `i` is `(profits[i], cvar_risks[i], activity_counts[i] / n_rounds)`. -/
noncomputable def run_simulation (p : Params) (n_agents n_rounds : ℕ) (g : RNG) : SimOutput :=
  let init : List AgentState := List.replicate n_agents ⟨true, 0, 0, 0⟩
  let acc := simRounds p n_agents 0 n_rounds init g
  { bids_df := acc.1.bidsRows
    summary := acc.1.states.map fun s => ⟨s.profit, s.cvar, s.activity / (n_rounds : ℝ)⟩
    round_reports := acc.1.reports
    dual_var_df := acc.1.lambdaRows }

/-- One agent's turn in a round of the inline loop of `live_bidding.py`
(lines 106-124).  Identical to `agentStep` except that the profit increment is
`bid * uniform(0.05, 0.15)` with no dual-variable discount (line 120), and no
dual variables exist in this file. -/
noncomputable def lb_agentStep (bv mi ct : ℝ) (s : AgentState) (g : RNG) : AgentStepOut :=
  if s.active then
    let u := npRand g
    if u.1 < bv * (1 - ct) / 2 then
      ⟨{ s with active := false }, none, true, u.2⟩
    else
      let ub := npUniform 0.8 1.2 u.2
      let z := npRandn ub.2
      let bid := np_round2 (100 * ub.1 * (1 + z.1 * bv * mi))
      let up := npUniform 0.05 0.15 z.2
      let z2 := npRandn up.2
      ⟨{ s with
          profit := s.profit + bid * up.1,
          cvar := s.cvar + max 0 (z2.1 * (1 - ct) * 5),
          activity := s.activity + 1 },
        some bid, false, z2.2⟩
  else ⟨s, none, false, g⟩

/-- The inner agent loop of a round of `live_bidding.py` (lines 106-124). -/
noncomputable def lb_agentsLoop (bv mi ct : ℝ) :
    ℕ → List AgentState → RNG → LoopOut × RNG
  | _, [], g => (⟨[], [], []⟩, g)
  | i, s :: ss, g =>
      let o := lb_agentStep bv mi ct s g
      let rest := lb_agentsLoop bv mi ct (i + 1) ss o.rng
      (⟨o.state :: rest.1.states, o.bid :: rest.1.bids,
        (if o.withdrew then [i] else []) ++ rest.1.withdrawn⟩, rest.2)

/-- One round of `live_bidding.py` (lines 99-148): the agent loop, the
`round_bids["Round"] = r + 1` insertion, and the round report (computed by the
same formulas as in `app.py`; in this file the report is rendered as a
markdown string, with the same `highest_bid` / `lowest_bid` / `top_agent` /
`withdrawn_agents` fields). -/
structure LbRoundOut where
  states : List AgentState
  bids : List (Option ℝ)
  report : Report

/-- One round of the `live_bidding.py` loop. -/
noncomputable def lb_roundStep (bv mi ct : ℝ) (r : ℕ) (states : List AgentState) (g : RNG) :
    LbRoundOut × RNG :=
  let lo := lb_agentsLoop bv mi ct 0 states g
  (⟨lo.1.states, lo.1.bids, mkReport r lo.1.bids lo.1.withdrawn⟩, lo.2)

/-- Accumulated tables of the `live_bidding.py` round loop. -/
structure LbAcc where
  states : List AgentState
  bidsRows : List (List (Option ℝ))
  reports : List Report

/-- The `for r in range(n_rounds)` loop of `live_bidding.py` (lines 99-148),
with `k` rounds left and `r` the index of the next round. -/
noncomputable def lb_simRounds (bv mi ct : ℝ) :
    ℕ → ℕ → List AgentState → RNG → LbAcc × RNG
  | _, 0, states, g => (⟨states, [], []⟩, g)
  | r, k + 1, states, g =>
      let ro := lb_roundStep bv mi ct r states g
      let acc := lb_simRounds bv mi ct (r + 1) k ro.1.states ro.2
      (⟨acc.1.states, ro.1.bids :: acc.1.bidsRows, ro.1.report :: acc.1.reports⟩, acc.2)

/-- Dual-variable recurrence of `files/governance_in_loop.py` lines 59-61:
`base_cvar_penalty + randn * 0.3 + sin(r / 3) * governance_sensitivity`,
clipped below at `0.01`. -/
noncomputable def gov_lambdaStep (base_cvar_penalty governance_sensitivity : ℝ)
    (r : ℕ) (z : ℝ) : ℝ :=
  max 0.01 (base_cvar_penalty + z * 0.3 + Real.sin ((r : ℝ) / 3) * governance_sensitivity)

/-- Elementwise profit update of `files/governance_in_loop.py` line 64:
`profits += np.maximum(0, 100 * uniform(0.8, 1.2, n) / (1 + lambdas))`. -/
noncomputable def gov_profits_update (ps ls us : List ℝ) : List ℝ :=
  match ps, ls, us with
  | prof :: ps, lam :: ls, u :: us =>
      (prof + max 0 (100 * u / (1 + lam))) :: gov_profits_update ps ls us
  | _, _, _ => []

/-- Outputs of the oversight loop of `files/governance_in_loop.py`:
`lambda_values` rows, the per-round `alerts` flags, and final `profits`. -/
structure GovAcc where
  lambdaRows : List (List ℝ)
  alerts : List Bool
  profits : List ℝ

/-- The `for r in range(n_rounds)` loop of `files/governance_in_loop.py`
(lines 57-68): per round, `n` normal draws evolve the lambdas, `n` uniform
draws update the profits, the lambda row is recorded and an alert flag
`any(l > intervention_threshold for l in lambdas)` is appended. -/
noncomputable def gov_simRounds (n : ℕ) (base thr sens : ℝ) :
    ℕ → ℕ → List ℝ → RNG → GovAcc × RNG
  | _, 0, profits, g => (⟨[], [], profits⟩, g)
  | r, k + 1, profits, g =>
      let zs := npRandnVec n g
      let lambdas := zs.1.map (gov_lambdaStep base sens r)
      let us := npUniformVec 0.8 1.2 n zs.2
      let acc := gov_simRounds n base thr sens (r + 1) k (gov_profits_update profits lambdas us.1) us.2
      (⟨lambdas :: acc.1.lambdaRows,
        (lambdas.any fun l => decide (thr < l)) :: acc.1.alerts, acc.1.profits⟩, acc.2)

/-- The oversight simulation of `files/governance_in_loop.py` lines 48-68:
`np.random.seed(random_seed)` fixes the generator state `g`, profits start at
`np.zeros(n_agents)`, and the loop runs `n_rounds` rounds. -/
noncomputable def governance_in_loop (n_agents n_rounds : ℕ) (base thr sens : ℝ)
    (g : RNG) : GovAcc :=
  (gov_simRounds n_agents base thr sens 0 n_rounds (List.replicate n_agents 0) g).1

/-- Gini coefficient as computed by `app.py` lines 293-295 (and again at lines
370-372): with `sorted_p = np.sort(profits)` and `n = len(profits)`,
`(2 * np.sum(np.arange(1, n+1) * sorted_p)) / (n * np.sum(sorted_p)) - (n+1)/n`. -/
noncomputable def app_gini (profits : List ℝ) : ℝ :=
  let sorted_p := np_sort profits
  let n : ℝ := profits.length
  2 * weightedIdxSum 1 sorted_p / (n * sorted_p.sum) - (n + 1) / n

/-- `fairness_score = 1 - gini` of `app.py` line 296 (and line 373). -/
noncomputable def app_fairness_score (profits : List ℝ) : ℝ := 1 - app_gini profits

/-- `efficiency_score = (np.mean(profits) / (np.std(profits) + 1e-6)) *
fairness_score` of `app.py` line 297 (and line 378). -/
noncomputable def app_efficiency_score (profits : List ℝ) : ℝ :=
  np_mean profits / (np_std profits + 1 / 1000000) * app_fairness_score profits

/-- Gini coefficient as computed by `files/market_lens.py` lines 79-81 (the
`"Gini Coefficient"` fairness-metric branch); textually the same arithmetic as
in `app.py`. -/
noncomputable def market_lens_gini (profits : List ℝ) : ℝ :=
  let sorted_profits := np_sort profits
  let n : ℝ := profits.length
  2 * weightedIdxSum 1 sorted_profits / (n * sorted_profits.sum) - (n + 1) / n

/-- `fairness_score = 1 - gini` of `files/market_lens.py` line 82. -/
noncomputable def market_lens_fairness_score (profits : List ℝ) : ℝ :=
  1 - market_lens_gini profits

/-- `efficiency_score = (np.mean(profits) / (np.std(profits) + 1e-6)) *
fairness_score` of `files/market_lens.py` line 120, where `fairness_score` is
whichever fairness metric was selected. -/
noncomputable def market_lens_efficiency_score (profits : List ℝ) (fairness_score : ℝ) : ℝ :=
  np_mean profits / (np_std profits + 1 / 1000000) * fairness_score

/-- The Gini coefficient exactly as worded by the specification claim: for a
profit vector `p` of length `n` with sorted values `p_(1) <= ... <= p_(n)`,
`Gini = (2 * sum_(i=1..n) i * p_(i)) / (n * sum p) - (n+1)/n`. -/
noncomputable def gini_spec (p : List ℝ) : ℝ :=
  let sorted := np_sort p
  let n : ℝ := p.length
  2 * weightedIdxSum 1 sorted / (n * p.sum) - (n + 1) / n

/-- The efficiency formula exactly as worded by the specification claim:
`(mean(profits) / (std(profits) + 1e-6))` multiplied by the fairness score. -/
noncomputable def efficiency_spec (profits : List ℝ) (fairness : ℝ) : ℝ :=
  np_mean profits / (np_std profits + 1 / 1000000) * fairness

/-- The guarded upload handler of `demo_app.py` lines 183-196.  The outcome of
`pd.read_csv` / `pd.read_excel` is an `Except` value (`Except.error e` models
the call raising exception `e`); `prior` is the value of
`st.session_state["portfolio_df"]` before the handler runs (`none` when
unset).  The handler returns the session entry after the handler and the
message shown by `st.error` (if any).  On success the dataframe is truncated
to its first 50000 rows when larger and stored; on failure the state is left
untouched and the error is rendered as a string. -/
def uploadHandler {α : Type} (readResult : Except String (List α))
    (prior : Option (List α)) : Option (List α) × Option String :=
  match readResult with
  | Except.ok df0 =>
      let df := if df0.length > 50000 then df0.take 50000 else df0
      (some df, none)
  | Except.error e => (prior, some ("❌ Failed to load file: " ++ e))

/-- The guarded Azure OpenAI call of `demo_app.py` lines 380-391.  `call`
models the outcome of `client.chat.completions.create` (the `.error` case is
the call raising); `st` is any surrounding state, returned untouched in both
branches.  The returned string is what `st.write` displays. -/
def aiCommentary {σ : Type} (call : Except String String) (st : σ) : String × σ :=
  match call with
  | Except.ok content => (content, st)
  | Except.error e => ("AI commentary unavailable: " ++ e, st)

/-- A concrete parameter vector (the defaults of the `app.py` sliders) used by
witness theorems. -/
noncomputable def pEx : Params :=
  ⟨"Normal", 0.15, 1.0, 0.5, 1.0, 2.5, 1.0⟩

/-- A concrete generator state (the all-zero tape) used by witness theorems. -/
def gEx : RNG := ⟨fun _ => 0, 0⟩

/-- A concrete agent state with zero accumulators, used by witness theorems. -/
def sEx : AgentState := ⟨true, 0, 0, 0⟩

/-- A concrete inactive agent state, used by witness theorems. -/
def aEx : AgentState := ⟨false, 2, 3, 4⟩

/-- Relation between an agent state and its update by one agent turn: the
CVaR accumulator never decreases, the activity count never decreases and grows
by at most 1, and an inactive agent is left exactly as it was. -/
def StepRel (a b : AgentState) : Prop :=
  a.cvar ≤ b.cvar ∧ a.activity ≤ b.activity ∧ b.activity ≤ a.activity + 1 ∧
    (a.active = false → b = a)

/-- Relation between an agent state and its update by `k` rounds: the CVaR
accumulator never decreases, the activity count never decreases and grows by
at most `k`, and an inactive agent is left exactly as it was. -/
def RunRel (k : ℕ) (a b : AgentState) : Prop :=
  a.cvar ≤ b.cvar ∧ a.activity ≤ b.activity ∧ b.activity ≤ a.activity + (k : ℝ) ∧
    (a.active = false → b = a)

theorem npRandnVec_length (n : ℕ) (g : RNG) : (npRandnVec n g).1.length = n := by
  induction n generalizing g with
  | zero => simp [npRandnVec]
  | succ n ih => simp [npRandnVec, ih]

theorem agentStep_inactive (p : Params) (lam : ℝ) (s : AgentState) (g : RNG)
    (h : s.active = false) : agentStep p lam s g = ⟨s, none, false, g⟩ := by
  simp [agentStep, h]

theorem lb_agentStep_inactive (bv mi ct : ℝ) (s : AgentState) (g : RNG)
    (h : s.active = false) : lb_agentStep bv mi ct s g = ⟨s, none, false, g⟩ := by
  simp [lb_agentStep, h]

theorem agentStep_state_eq (p : Params) (lam : ℝ) (s : AgentState) (g : RNG) :
    (s.active = false ∧ (agentStep p lam s g).state = s) ∨
    (s.active = true ∧ (agentStep p lam s g).state = { s with active := false }) ∨
    (s.active = true ∧ ∃ pr cv, 0 ≤ cv ∧
      (agentStep p lam s g).state =
        { s with profit := s.profit + pr, cvar := s.cvar + cv,
                 activity := s.activity + 1 }) := by
  by_cases h1 : s.active = true
  · unfold agentStep
    simp only [h1, if_true]
    split_ifs with h2
    · exact Or.inr (Or.inl ⟨trivial, rfl⟩)
    · refine Or.inr (Or.inr ⟨trivial, _, _, ?_, rfl⟩)
      exact le_max_left _ _
  · have h0 : s.active = false := by simpa using h1
    exact Or.inl ⟨h0, by rw [agentStep_inactive p lam s g h0]⟩

theorem agentStep_rel (p : Params) (lam : ℝ) (s : AgentState) (g : RNG) :
    StepRel s (agentStep p lam s g).state := by
  rcases agentStep_state_eq p lam s g with ⟨_, he⟩ | ⟨ha, he⟩ | ⟨ha, pr, cv, hcv, he⟩
  · rw [he]; exact ⟨le_rfl, le_rfl, by norm_num, fun _ => rfl⟩
  · rw [he]
    exact ⟨le_rfl, le_rfl, by norm_num, fun hf => Bool.noConfusion (ha ▸ hf)⟩
  · rw [he]
    refine ⟨?_, ?_, ?_, fun hf => Bool.noConfusion (ha ▸ hf)⟩
    · show s.cvar ≤ s.cvar + cv
      linarith
    · show s.activity ≤ s.activity + 1
      linarith
    · show s.activity + 1 ≤ s.activity + 1
      exact le_rfl

theorem forall2_trans_comp {α : Type} {R S T : α → α → Prop}
    (h : ∀ a b c, R a b → S b c → T a c) :
    ∀ {l₁ l₂ l₃ : List α}, List.Forall₂ R l₁ l₂ → List.Forall₂ S l₂ l₃ →
      List.Forall₂ T l₁ l₃ := by
  intro l₁ l₂ l₃ h12 h23
  induction h12 generalizing l₃ with
  | nil => cases h23; exact List.Forall₂.nil
  | cons hab _ ih =>
      cases h23 with
      | cons hbc h2 => exact List.Forall₂.cons (h _ _ _ hab hbc) (ih h2)

theorem forall2_mem_right {α β : Type} {R : α → β → Prop} :
    ∀ {l₁ : List α} {l₂ : List β}, List.Forall₂ R l₁ l₂ → ∀ b ∈ l₂,
      ∃ a ∈ l₁, R a b := by
  intro l₁ l₂ h
  induction h with
  | nil => intro b hb; cases hb
  | cons hab _ ih =>
      intro b hb
      rcases List.mem_cons.mp hb with hb | hb
      · exact ⟨_, List.mem_cons_self _ _, hb ▸ hab⟩
      · rcases ih b hb with ⟨a, ha, hr⟩
        exact ⟨a, List.mem_cons_of_mem _ ha, hr⟩

theorem agentsLoop_rel (p : Params) (lambdas : List ℝ) :
    ∀ (i : ℕ) (ss : List AgentState) (g : RNG),
      List.Forall₂ StepRel ss (agentsLoop p lambdas i ss g).1.states := by
  intro i ss
  induction ss generalizing i with
  | nil => intro g; simp [agentsLoop]
  | cons s ss ih =>
      intro g
      simpa [agentsLoop] using
        List.Forall₂.cons (agentStep_rel p (lambdas.getD i 0) s g) (ih (i + 1) _)

theorem agentsLoop_bids_length (p : Params) (lambdas : List ℝ) :
    ∀ (i : ℕ) (ss : List AgentState) (g : RNG),
      (agentsLoop p lambdas i ss g).1.bids.length = ss.length := by
  intro i ss
  induction ss generalizing i with
  | nil => intro g; simp [agentsLoop]
  | cons s ss ih => intro g; simp [agentsLoop, ih (i + 1)]

theorem agentsLoop_get_inactive (p : Params) (lambdas : List ℝ) :
    ∀ (i : ℕ) (ss : List AgentState) (g : RNG) (j : ℕ) (a : AgentState),
      ss.get? j = some a → a.active = false →
      (agentsLoop p lambdas i ss g).1.states.get? j = some a ∧
      (agentsLoop p lambdas i ss g).1.bids.get? j = some none := by
  intro i ss
  induction ss generalizing i with
  | nil => intro g j a hj; cases hj
  | cons s ss ih =>
      intro g j a hj ha
      cases j with
      | zero =>
          have hs : s = a := by simpa using hj
          subst hs
          simp [agentsLoop, agentStep_inactive p _ s _ ha]
      | succ j =>
          have hj' : ss.get? j = some a := by simpa using hj
          have := ih (i + 1) (agentStep p (lambdas.getD i 0) s g).rng j a hj' ha
          simpa [agentsLoop] using this

theorem pyMax_isSome : ∀ (l : List ℝ), l ≠ [] → (pyMax l).isSome = true
  | [], h => absurd rfl h
  | _ :: _, _ => rfl

theorem pyMin_isSome : ∀ (l : List ℝ), l ≠ [] → (pyMin l).isSome = true
  | [], h => absurd rfl h
  | _ :: _, _ => rfl

theorem activeBids_ne_nil (bids : List (Option ℝ)) (r : ℕ) : activeBids bids r ≠ [] := by
  simp [activeBids]

theorem mkReport_highest_isSome (r : ℕ) (bids : List (Option ℝ)) (w : List ℕ) :
    ((mkReport r bids w).highest_bid).isSome = true :=
  pyMax_isSome _ (activeBids_ne_nil bids r)

theorem mkReport_lowest_isSome (r : ℕ) (bids : List (Option ℝ)) (w : List ℕ) :
    ((mkReport r bids w).lowest_bid).isSome = true :=
  pyMin_isSome _ (activeBids_ne_nil bids r)

theorem filterMap_id_of_all_none :
    ∀ (bids : List (Option ℝ)), (∀ b ∈ bids, b = none) →
      bids.filterMap id = [] := by
  intro bids
  induction bids with
  | nil => intro _; rfl
  | cons b bs ih =>
      intro h
      have hb : b = none := h b (List.mem_cons_self _ _)
      subst hb
      simpa using ih fun x hx => h x (List.mem_cons_of_mem _ hx)

theorem mkReport_all_none (r : ℕ) (bids : List (Option ℝ)) (w : List ℕ)
    (h : ∀ b ∈ bids, b = none) :
    (mkReport r bids w).highest_bid = some ((r : ℝ) + 1) ∧
    (mkReport r bids w).lowest_bid = some ((r : ℝ) + 1) := by
  have hab : activeBids bids r = [(r : ℝ) + 1] := by
    simp [activeBids, filterMap_id_of_all_none bids h]
  constructor <;> simp [mkReport, hab, pyMax, pyMin]

theorem nanGt_none_right (a : Option ℝ) : nanGt a none = false := by
  cases a <;> rfl

theorem nanGt_none_left (b : Option ℝ) : nanGt none b = false := by
  cases b <;> rfl

theorem pyArgmax_none (first : BidKey × Option ℝ) (h : first.2 = none) :
    ∀ rest, pyArgmax first rest = first.1 := by
  intro rest
  induction rest with
  | nil => rfl
  | cons e es ih =>
      have hg : nanGt e.2 first.2 = false := by rw [h]; exact nanGt_none_right e.2
      simp [pyArgmax, hg, ih]

theorem pyArgmax_last :
    ∀ (rest : List (BidKey × Option ℝ)) (first : BidKey × Option ℝ) (k : BidKey) (v a : ℝ),
      first.2 = some a → a < v →
      (∀ e ∈ rest, ∀ x : ℝ, e.2 = some x → x < v) →
      pyArgmax first (rest ++ [(k, some v)]) = k := by
  intro rest
  induction rest with
  | nil =>
      intro first k v a hf ha _
      have hg : nanGt (some v) first.2 = true := by
        rw [hf]
        simpa [nanGt] using ha
      simp [pyArgmax, hg]
  | cons e es ih =>
      intro first k v a hf ha hrest
      simp only [List.cons_append, pyArgmax]
      by_cases hg : nanGt e.2 first.2 = true
      · rw [if_pos hg]
        obtain ⟨x, hx⟩ : ∃ x, e.2 = some x := by
          cases hex : e.2 with
          | none =>
              rw [hex, nanGt_none_left] at hg
              exact absurd hg (by simp)
          | some x => exact ⟨x, rfl⟩
        exact ih e k v x hx (hrest e (List.mem_cons_self _ _) x hx)
          fun e2 he2 y hy => hrest e2 (List.mem_cons_of_mem _ he2) y hy
      · rw [if_neg hg]
        exact ih first k v a hf ha
          fun e2 he2 y hy => hrest e2 (List.mem_cons_of_mem _ he2) y hy

theorem snd_mem_of_mem_enumFrom {α : Type} :
    ∀ (l : List α) (n : ℕ) (x : ℕ × α), x ∈ l.enumFrom n → x.2 ∈ l := by
  intro l
  induction l with
  | nil => intro n x hx; cases hx
  | cons a as ih =>
      intro n x hx
      rw [List.enumFrom_cons] at hx
      rcases List.mem_cons.mp hx with rfl | hx
      · exact List.mem_cons_self _ _
      · exact List.mem_cons_of_mem _ (ih (n + 1) x hx)

theorem topAgent_first_nan (bids : List (Option ℝ)) (r : ℕ)
    (h : bids.get? 0 = some none) : topAgent bids r = BidKey.agent 0 := by
  cases bids with
  | nil => cases h
  | cons b tl =>
      have hb : b = none := by simpa using h
      subst hb
      unfold topAgent bidEntries
      rw [show ((none : Option ℝ) :: tl).enum = (0, (none : Option ℝ)) :: tl.enumFrom 1 from rfl]
      simp only [List.map_cons, List.cons_append, pyArgmaxL]
      exact pyArgmax_none (BidKey.agent 0, none) rfl _

theorem topAgent_round (bids : List (Option ℝ)) (r : ℕ)
    (hfirst : ∀ b, bids.get? 0 = some b → b ≠ none)
    (h : ∀ b ∈ bids, ∀ x : ℝ, b = some x → x < (r : ℝ) + 1) :
    topAgent bids r = BidKey.round := by
  cases bids with
  | nil =>
      unfold topAgent bidEntries
      rfl
  | cons b tl =>
      have hb := hfirst b (by simp)
      obtain ⟨a, ha⟩ : ∃ a, b = some a := by
        cases hbb : b with
        | none => exact absurd hbb hb
        | some a => exact ⟨a, rfl⟩
      subst ha
      have hrest : ∀ e ∈ (tl.enumFrom 1).map fun e => (BidKey.agent e.1, e.2),
          ∀ x : ℝ, e.2 = some x → x < (r : ℝ) + 1 := by
        intro e he x hx
        rcases List.mem_map.mp he with ⟨y, hy, rfl⟩
        exact h y.2 (List.mem_cons_of_mem _ (snd_mem_of_mem_enumFrom tl 1 y hy)) x hx
      unfold topAgent bidEntries
      rw [show ((some a : Option ℝ) :: tl).enum =
        (0, (some a : Option ℝ)) :: tl.enumFrom 1 from rfl]
      simp only [List.map_cons, List.cons_append, pyArgmaxL]
      exact pyArgmax_last _ (BidKey.agent 0, some a) BidKey.round ((r : ℝ) + 1) a rfl
        (h (some a) (List.mem_cons_self _ _) a rfl) hrest

theorem lb_agentsLoop_get_inactive (bv mi ct : ℝ) :
    ∀ (i : ℕ) (ss : List AgentState) (g : RNG) (j : ℕ) (a : AgentState),
      ss.get? j = some a → a.active = false →
      (lb_agentsLoop bv mi ct i ss g).1.states.get? j = some a ∧
      (lb_agentsLoop bv mi ct i ss g).1.bids.get? j = some none := by
  intro i ss
  induction ss generalizing i with
  | nil => intro g j a hj; cases hj
  | cons s ss ih =>
      intro g j a hj ha
      cases j with
      | zero =>
          have hs : s = a := by simpa using hj
          subst hs
          simp [lb_agentsLoop, lb_agentStep_inactive bv mi ct s _ ha]
      | succ j =>
          have hj' : ss.get? j = some a := by simpa using hj
          have := ih (i + 1) (lb_agentStep bv mi ct s g).rng j a hj' ha
          simpa [lb_agentsLoop] using this

theorem roundStep_rel (p : Params) (n r : ℕ) (states : List AgentState) (g : RNG) :
    List.Forall₂ StepRel states (roundStep p n r states g).1.states :=
  agentsLoop_rel p ((npRandnVec n g).1.map (lambdaStep p r)) 0 states (npRandnVec n g).2

theorem roundStep_states_length (p : Params) (n r : ℕ) (states : List AgentState) (g : RNG) :
    (roundStep p n r states g).1.states.length = states.length :=
  (roundStep_rel p n r states g).length_eq.symm

theorem roundStep_bids_length (p : Params) (n r : ℕ) (states : List AgentState) (g : RNG) :
    (roundStep p n r states g).1.bids.length = states.length :=
  agentsLoop_bids_length p ((npRandnVec n g).1.map (lambdaStep p r)) 0 states (npRandnVec n g).2

theorem roundStep_lambdas_length (p : Params) (n r : ℕ) (states : List AgentState) (g : RNG) :
    (roundStep p n r states g).1.lambdas.length = n := by
  show ((npRandnVec n g).1.map (lambdaStep p r)).length = n
  simp [npRandnVec_length]

theorem lambdaStep_lb (p : Params) (r : ℕ) (z : ℝ) : 0.01 ≤ lambdaStep p r z :=
  le_max_left _ _

theorem gov_lambdaStep_lb (b s : ℝ) (r : ℕ) (z : ℝ) : 0.01 ≤ gov_lambdaStep b s r z :=
  le_max_left _ _

theorem roundStep_lambdas_lb (p : Params) (n r : ℕ) (states : List AgentState) (g : RNG) :
    ∀ x ∈ (roundStep p n r states g).1.lambdas, 0.01 ≤ x := by
  intro x hx
  have hx' : x ∈ (npRandnVec n g).1.map (lambdaStep p r) := hx
  rcases List.mem_map.mp hx' with ⟨z, _, rfl⟩
  exact lambdaStep_lb p r z

theorem roundStep_inactive (p : Params) (n r : ℕ) (states : List AgentState) (g : RNG)
    (j : ℕ) (a : AgentState) (hj : states.get? j = some a) (ha : a.active = false) :
    (roundStep p n r states g).1.states.get? j = some a ∧
    (roundStep p n r states g).1.bids.get? j = some none :=
  agentsLoop_get_inactive p ((npRandnVec n g).1.map (lambdaStep p r)) 0 states
    (npRandnVec n g).2 j a hj ha

theorem roundStep_report_isSome (p : Params) (n r : ℕ) (states : List AgentState) (g : RNG) :
    ((roundStep p n r states g).1.report.highest_bid).isSome = true ∧
    ((roundStep p n r states g).1.report.lowest_bid).isSome = true :=
  ⟨mkReport_highest_isSome r _ _, mkReport_lowest_isSome r _ _⟩

theorem simRounds_rel (p : Params) (n : ℕ) :
    ∀ (k r : ℕ) (states : List AgentState) (g : RNG),
      List.Forall₂ (RunRel k) states (simRounds p n r k states g).1.states := by
  intro k
  induction k with
  | zero =>
      intro r states g
      simp only [simRounds]
      exact List.forall₂_same.mpr fun a _ => ⟨le_rfl, le_rfl, by norm_num, fun _ => rfl⟩
  | succ k ih =>
      intro r states g
      simp only [simRounds]
      refine forall2_trans_comp ?_ (roundStep_rel p n r states g)
        (ih (r + 1) (roundStep p n r states g).1.states (roundStep p n r states g).2)
      intro a b c hab hbc
      obtain ⟨h1, h2, h3, h4⟩ := hab
      obtain ⟨h5, h6, h7, h8⟩ := hbc
      refine ⟨le_trans h1 h5, le_trans h2 h6, ?_, ?_⟩
      · push_cast
        linarith
      · intro hf
        have hb := h4 hf
        rw [hb] at h8
        exact h8 hf

theorem simRounds_states_length (p : Params) (n k r : ℕ) (states : List AgentState) (g : RNG) :
    (simRounds p n r k states g).1.states.length = states.length :=
  (simRounds_rel p n k r states g).length_eq.symm

theorem simRounds_counts (p : Params) (n : ℕ) :
    ∀ (k r : ℕ) (states : List AgentState) (g : RNG),
      (simRounds p n r k states g).1.bidsRows.length = k ∧
      (simRounds p n r k states g).1.reports.length = k ∧
      (simRounds p n r k states g).1.lambdaRows.length = k := by
  intro k
  induction k with
  | zero => intro r states g; simp [simRounds]
  | succ k ih =>
      intro r states g
      have h := ih (r + 1) (roundStep p n r states g).1.states (roundStep p n r states g).2
      simp [simRounds, h.1, h.2.1, h.2.2]

theorem simRounds_bidsRows_width (p : Params) (n : ℕ) :
    ∀ (k r : ℕ) (states : List AgentState) (g : RNG),
      ∀ row ∈ (simRounds p n r k states g).1.bidsRows, row.length = states.length := by
  intro k
  induction k with
  | zero => intro r states g row hrow; simp [simRounds] at hrow
  | succ k ih =>
      intro r states g row hrow
      simp only [simRounds] at hrow
      rcases List.mem_cons.mp hrow with rfl | hrow
      · exact roundStep_bids_length p n r states g
      · have h := ih (r + 1) (roundStep p n r states g).1.states (roundStep p n r states g).2 row hrow
        rw [h, roundStep_states_length]

theorem simRounds_lambdaRows_width (p : Params) (n : ℕ) :
    ∀ (k r : ℕ) (states : List AgentState) (g : RNG),
      ∀ row ∈ (simRounds p n r k states g).1.lambdaRows, row.length = n := by
  intro k
  induction k with
  | zero => intro r states g row hrow; simp [simRounds] at hrow
  | succ k ih =>
      intro r states g row hrow
      simp only [simRounds] at hrow
      rcases List.mem_cons.mp hrow with rfl | hrow
      · exact roundStep_lambdas_length p n r states g
      · exact ih (r + 1) (roundStep p n r states g).1.states (roundStep p n r states g).2 row hrow

theorem simRounds_lambdaRows_lb (p : Params) (n : ℕ) :
    ∀ (k r : ℕ) (states : List AgentState) (g : RNG),
      ∀ row ∈ (simRounds p n r k states g).1.lambdaRows, ∀ x ∈ row, 0.01 ≤ x := by
  intro k
  induction k with
  | zero => intro r states g row hrow; simp [simRounds] at hrow
  | succ k ih =>
      intro r states g row hrow
      simp only [simRounds] at hrow
      rcases List.mem_cons.mp hrow with rfl | hrow
      · exact roundStep_lambdas_lb p n r states g
      · exact ih (r + 1) (roundStep p n r states g).1.states (roundStep p n r states g).2 row hrow

theorem simRounds_inactive (p : Params) (n : ℕ) :
    ∀ (k r : ℕ) (states : List AgentState) (g : RNG) (j : ℕ) (a : AgentState),
      states.get? j = some a → a.active = false →
      (simRounds p n r k states g).1.states.get? j = some a ∧
      ∀ row ∈ (simRounds p n r k states g).1.bidsRows, row.get? j = some none := by
  intro k
  induction k with
  | zero =>
      intro r states g j a hj _
      refine ⟨by simpa [simRounds] using hj, ?_⟩
      intro row hrow
      simp [simRounds] at hrow
  | succ k ih =>
      intro r states g j a hj ha
      obtain ⟨hst, hbid⟩ := roundStep_inactive p n r states g j a hj ha
      obtain ⟨hst2, hrows⟩ :=
        ih (r + 1) (roundStep p n r states g).1.states (roundStep p n r states g).2 j a hst ha
      refine ⟨by simpa [simRounds] using hst2, ?_⟩
      intro row hrow
      simp only [simRounds] at hrow
      rcases List.mem_cons.mp hrow with rfl | hrow
      · exact hbid
      · exact hrows row hrow

theorem simRounds_reports_isSome (p : Params) (n : ℕ) :
    ∀ (k r : ℕ) (states : List AgentState) (g : RNG),
      ∀ rep ∈ (simRounds p n r k states g).1.reports,
        (rep.highest_bid).isSome = true ∧ (rep.lowest_bid).isSome = true := by
  intro k
  induction k with
  | zero => intro r states g rep hrep; simp [simRounds] at hrep
  | succ k ih =>
      intro r states g rep hrep
      simp only [simRounds] at hrep
      rcases List.mem_cons.mp hrep with rfl | hrep
      · exact roundStep_report_isSome p n r states g
      · exact ih (r + 1) (roundStep p n r states g).1.states (roundStep p n r states g).2 rep hrep

theorem lb_roundStep_inactive (bv mi ct : ℝ) (r : ℕ) (states : List AgentState) (g : RNG)
    (j : ℕ) (a : AgentState) (hj : states.get? j = some a) (ha : a.active = false) :
    (lb_roundStep bv mi ct r states g).1.states.get? j = some a ∧
    (lb_roundStep bv mi ct r states g).1.bids.get? j = some none :=
  lb_agentsLoop_get_inactive bv mi ct 0 states g j a hj ha

theorem lb_simRounds_inactive (bv mi ct : ℝ) :
    ∀ (k r : ℕ) (states : List AgentState) (g : RNG) (j : ℕ) (a : AgentState),
      states.get? j = some a → a.active = false →
      (lb_simRounds bv mi ct r k states g).1.states.get? j = some a ∧
      ∀ row ∈ (lb_simRounds bv mi ct r k states g).1.bidsRows, row.get? j = some none := by
  intro k
  induction k with
  | zero =>
      intro r states g j a hj _
      refine ⟨by simpa [lb_simRounds] using hj, ?_⟩
      intro row hrow
      simp [lb_simRounds] at hrow
  | succ k ih =>
      intro r states g j a hj ha
      obtain ⟨hst, hbid⟩ := lb_roundStep_inactive bv mi ct r states g j a hj ha
      obtain ⟨hst2, hrows⟩ :=
        ih (r + 1) (lb_roundStep bv mi ct r states g).1.states
          (lb_roundStep bv mi ct r states g).2 j a hst ha
      refine ⟨by simpa [lb_simRounds] using hst2, ?_⟩
      intro row hrow
      simp only [lb_simRounds] at hrow
      rcases List.mem_cons.mp hrow with rfl | hrow
      · exact hbid
      · exact hrows row hrow

theorem lb_simRounds_reports_isSome (bv mi ct : ℝ) :
    ∀ (k r : ℕ) (states : List AgentState) (g : RNG),
      ∀ rep ∈ (lb_simRounds bv mi ct r k states g).1.reports,
        (rep.highest_bid).isSome = true ∧ (rep.lowest_bid).isSome = true := by
  intro k
  induction k with
  | zero => intro r states g rep hrep; simp [lb_simRounds] at hrep
  | succ k ih =>
      intro r states g rep hrep
      simp only [lb_simRounds] at hrep
      rcases List.mem_cons.mp hrep with rfl | hrep
      · exact ⟨mkReport_highest_isSome r _ _, mkReport_lowest_isSome r _ _⟩
      · exact ih (r + 1) (lb_roundStep bv mi ct r states g).1.states
          (lb_roundStep bv mi ct r states g).2 rep hrep

theorem gov_simRounds_lambdaRows_lb (n : ℕ) (base thr sens : ℝ) :
    ∀ (k r : ℕ) (profits : List ℝ) (g : RNG),
      ∀ row ∈ (gov_simRounds n base thr sens r k profits g).1.lambdaRows,
        ∀ x ∈ row, 0.01 ≤ x := by
  intro k
  induction k with
  | zero => intro r profits g row hrow; simp [gov_simRounds] at hrow
  | succ k ih =>
      intro r profits g row hrow
      simp only [gov_simRounds] at hrow
      rcases List.mem_cons.mp hrow with rfl | hrow
      · intro x hx
        rcases List.mem_map.mp hx with ⟨z, _, rfl⟩
        exact gov_lambdaStep_lb base sens r z
      · exact ih (r + 1) _ _ row hrow

theorem np_sort_sum (xs : List ℝ) : (np_sort xs).sum = xs.sum :=
  (List.perm_insertionSort _ xs).sum_eq

theorem getD_pred {α : Type} (P : α → Prop) :
    ∀ (l : List α) (d : α), (∀ x ∈ l, P x) → P d → ∀ i, P (l.getD i d) := by
  intro l
  induction l with
  | nil => intro d _ hd i; simpa [List.getD] using hd
  | cons a as ih =>
      intro d hl hd i
      cases i with
      | zero => simpa using hl a (List.mem_cons_self _ _)
      | succ i => simpa using ih d (fun x hx => hl x (List.mem_cons_of_mem _ hx)) hd i

/-- C1: for every `n_agents >= 1` and `n_rounds >= 1`, `run_simulation`
iterates exactly `n_rounds` rounds — each round evolves the dual variables
first and then lets every still-active agent flip the withdrawal coin,
recording NaN or a bid and updating the profit and CVaR accumulators (as
embedded in `roundStep` / `agentStep`) — and appends one bids row and one
lambda row per round, so the returned bids and dual-variable tables each have
exactly `n_rounds` rows (one column per agent), there are `n_rounds` round
reports, and the summary has one row per agent. -/
theorem C1_run_simulation_shape (p : Params) (n R : ℕ) (g : RNG)
    (_hn : 1 ≤ n) (_hR : 1 ≤ R) :
    (run_simulation p n R g).bids_df.length = R ∧
    (run_simulation p n R g).dual_var_df.length = R ∧
    (run_simulation p n R g).round_reports.length = R ∧
    (∀ row ∈ (run_simulation p n R g).bids_df, row.length = n) ∧
    (∀ row ∈ (run_simulation p n R g).dual_var_df, row.length = n) ∧
    (run_simulation p n R g).summary.length = n := by
  have hc := simRounds_counts p n R 0 (List.replicate n ⟨true, 0, 0, 0⟩) g
  refine ⟨hc.1, hc.2.2, hc.2.1, ?_, ?_, ?_⟩
  · intro row hrow
    have h := simRounds_bidsRows_width p n R 0 (List.replicate n ⟨true, 0, 0, 0⟩) g row hrow
    simpa using h
  · intro row hrow
    exact simRounds_lambdaRows_width p n R 0 (List.replicate n ⟨true, 0, 0, 0⟩) g row hrow
  · have h1 : (run_simulation p n R g).summary.length =
        (simRounds p n 0 R (List.replicate n ⟨true, 0, 0, 0⟩) g).1.states.length :=
      List.length_map _ _
    rw [h1, simRounds_states_length, List.length_replicate]

/-- Witness for C1 at the concrete inputs `pEx`, 2 agents, 3 rounds, `gEx`. -/
theorem C1_witness : (run_simulation pEx 2 3 gEx).bids_df.length = 3 :=
  (C1_run_simulation_shape pEx 2 3 gEx (by norm_num) (by norm_num)).1

/-- C2: the fairness score computed by the app and by MarketLens equals one
minus the Gini coefficient of the profit vector, with the Gini coefficient
given by the specification formula (sorted values weighted by their 1-based
rank, normalised by `n * sum p`, minus `(n+1)/n`). -/
theorem C2_fairness_is_one_minus_gini (profits : List ℝ) :
    app_fairness_score profits = 1 - gini_spec profits ∧
    market_lens_fairness_score profits = 1 - gini_spec profits := by
  have hsum : (np_sort profits).sum = profits.sum := np_sort_sum profits
  constructor
  · simp only [app_fairness_score, app_gini, gini_spec, hsum]
  · simp only [market_lens_fairness_score, market_lens_gini, gini_spec, hsum]

/-- C3: the market efficiency score computed by the app and by MarketLens is
`mean(profits) / (std(profits) + 1e-6)` multiplied by the fairness score, for
every profit vector produced by a run. -/
theorem C3_efficiency_formula (p : Params) (n R : ℕ) (g : RNG) :
    app_efficiency_score ((run_simulation p n R g).summary.map SummaryRow.profit) =
      efficiency_spec ((run_simulation p n R g).summary.map SummaryRow.profit)
        (app_fairness_score ((run_simulation p n R g).summary.map SummaryRow.profit)) ∧
    ∀ fairness : ℝ,
      market_lens_efficiency_score
          ((run_simulation p n R g).summary.map SummaryRow.profit) fairness =
        efficiency_spec ((run_simulation p n R g).summary.map SummaryRow.profit) fairness :=
  ⟨rfl, fun _ => rfl⟩

/-- C4: range invariants enforced by clip / max.  One agent turn never
decreases the CVaR accumulator (each increment is of the form `max 0 _`) and
keeps it non-negative; every recorded dual variable in `run_simulation` and in
the governance loop is at least 0.01 (the clip lower bound); the CVaR
accumulators are non-decreasing across any number of rounds; and every CVaR
value of the returned summary is non-negative. -/
theorem C4_clip_and_cvar_invariants :
    (∀ (p : Params) (lam : ℝ) (s : AgentState) (g : RNG),
        s.cvar ≤ (agentStep p lam s g).state.cvar ∧
        (0 ≤ s.cvar → 0 ≤ (agentStep p lam s g).state.cvar)) ∧
    (∀ (p : Params) (n R : ℕ) (g : RNG),
        ∀ row ∈ (run_simulation p n R g).dual_var_df, ∀ x ∈ row, 0.01 ≤ x) ∧
    (∀ (n R : ℕ) (base thr sens : ℝ) (g : RNG),
        ∀ row ∈ (governance_in_loop n R base thr sens g).lambdaRows,
          ∀ x ∈ row, 0.01 ≤ x) ∧
    (∀ (p : Params) (n k r : ℕ) (states : List AgentState) (g : RNG),
        List.Forall₂ (fun a b => a.cvar ≤ b.cvar) states
          (simRounds p n r k states g).1.states) ∧
    (∀ (p : Params) (n R : ℕ) (g : RNG),
        ∀ srow ∈ (run_simulation p n R g).summary, 0 ≤ srow.cvar) := by
  refine ⟨?_, ?_, ?_, ?_, ?_⟩
  · intro p lam s g
    have h := agentStep_rel p lam s g
    exact ⟨h.1, fun h0 => le_trans h0 h.1⟩
  · intro p n R g row hrow
    exact simRounds_lambdaRows_lb p n R 0 (List.replicate n ⟨true, 0, 0, 0⟩) g row hrow
  · intro n R base thr sens g row hrow
    exact gov_simRounds_lambdaRows_lb n base thr sens R 0 (List.replicate n 0) g row hrow
  · intro p n k r states g
    exact List.Forall₂.imp (fun a b hab => hab.1) (simRounds_rel p n k r states g)
  · intro p n R g srow hsrow
    have hsrow' : srow ∈ (simRounds p n 0 R (List.replicate n ⟨true, 0, 0, 0⟩) g).1.states.map
        (fun s => (⟨s.profit, s.cvar, s.activity / (R : ℝ)⟩ : SummaryRow)) := hsrow
    rcases List.mem_map.mp hsrow' with ⟨s, hs, rfl⟩
    rcases forall2_mem_right (simRounds_rel p n R 0 _ g) s hs with ⟨a, ha, hrel⟩
    have ha0 : a = ⟨true, 0, 0, 0⟩ := List.eq_of_mem_replicate ha
    have h1 := hrel.1
    rw [ha0] at h1
    exact h1

/-- Witness for C4: the non-negativity clause applied at `pEx`, `sEx`, `gEx`
with its hypothesis discharged at `sEx.cvar = 0`. -/
theorem C4_witness : 0 ≤ (agentStep pEx 1 sEx gEx).state.cvar :=
  (C4_clip_and_cvar_invariants.1 pEx 1 sEx gEx).2 (le_refl 0)

/-- C5: the duplicated simulation logic coincides.  For the same agent state
and generator, the withdrawal decision, the recorded (rounded) bid and the
generator advance of the `app.py` agent turn equal those of the
`live_bidding.py` agent turn, as does the resulting active flag; and the
lambda recurrence of `run_simulation` coincides with the one of
`governance_in_loop.py` for matching parameters. -/
theorem C5_duplicates_coincide :
    (∀ (p : Params) (lam : ℝ) (s : AgentState) (g : RNG),
        (agentStep p lam s g).withdrew =
          (lb_agentStep p.bid_volatility p.market_intensity p.cvar_target s g).withdrew ∧
        (agentStep p lam s g).bid =
          (lb_agentStep p.bid_volatility p.market_intensity p.cvar_target s g).bid ∧
        (agentStep p lam s g).rng =
          (lb_agentStep p.bid_volatility p.market_intensity p.cvar_target s g).rng ∧
        (agentStep p lam s g).state.active =
          (lb_agentStep p.bid_volatility p.market_intensity p.cvar_target s g).state.active) ∧
    (∀ (p : Params) (r : ℕ) (z : ℝ),
        lambdaStep p r z = gov_lambdaStep p.base_lambda p.governance_sensitivity r z) := by
  constructor
  · intro p lam s g
    by_cases h1 : s.active = true
    · by_cases h2 : (npRand g).1 < p.bid_volatility * (1 - p.cvar_target) / 2
      · simp [agentStep, lb_agentStep, h1, h2]
      · simp [agentStep, lb_agentStep, h1, h2]
    · have h0 : s.active = false := by simpa using h1
      rw [agentStep_inactive p lam s g h0, lb_agentStep_inactive _ _ _ s g h0]
      exact ⟨rfl, rfl, rfl, rfl⟩
  · intro p r z
    rfl

/-- C6: the simulation is stateless per run and PRNG-deterministic: the
outputs are functions of the parameters and the initial generator state only,
so two runs with equal parameters and equal generator states return identical
outputs, both for `run_simulation` and for the seeded governance loop (a fixed
seed fixes the tape, hence the lambda trajectory, alerts and profits). -/
theorem C6_deterministic :
    (∀ (p : Params) (n R : ℕ) (g1 g2 : RNG), g1.tape = g2.tape → g1.pos = g2.pos →
        run_simulation p n R g1 = run_simulation p n R g2) ∧
    (∀ (n R : ℕ) (base thr sens : ℝ) (g1 g2 : RNG), g1.tape = g2.tape → g1.pos = g2.pos →
        governance_in_loop n R base thr sens g1 = governance_in_loop n R base thr sens g2) := by
  have hg : ∀ (g1 g2 : RNG), g1.tape = g2.tape → g1.pos = g2.pos → g1 = g2 := by
    intro g1 g2 ht hp
    cases g1
    cases g2
    simp only [RNG.mk.injEq]
    exact ⟨ht, hp⟩
  constructor
  · intro p n R g1 g2 ht hp
    rw [hg g1 g2 ht hp]
  · intro n R base thr sens g1 g2 ht hp
    rw [hg g1 g2 ht hp]

/-- Witness for C6 at the concrete inputs `pEx`, `gEx`. -/
theorem C6_witness : run_simulation pEx 1 1 gEx = run_simulation pEx 1 1 gEx :=
  C6_deterministic.1 pEx 1 1 gEx gEx rfl rfl

/-- C7: errors at the two guarded call sites of `demo_app.py` are caught and
displayed as strings rather than propagated, atomically with respect to the
stored state: a failing portfolio read leaves the stored portfolio at its
prior value (no partial write) and renders the error message, and a failing
Azure OpenAI call renders the string `AI commentary unavailable: ...` while
everything else is unchanged. -/
theorem C7_error_handling :
    (∀ (α : Type) (e : String) (prior : Option (List α)),
        uploadHandler (Except.error e) prior =
          (prior, some ("❌ Failed to load file: " ++ e))) ∧
    (∀ (σ : Type) (e : String) (st : σ),
        aiCommentary (Except.error e) st = ("AI commentary unavailable: " ++ e, st)) :=
  ⟨fun _ _ _ => rfl, fun _ _ _ => rfl⟩

/-- C8 counterexample: the claim as stated is false of the program.  At round
0 with a single withdrawn agent, `r + 1 = 1` exceeds every recorded agent bid
(there are none), yet `top_agent` is `"Agent 1"`, not `"Round"`: since
`np.nan` is a Python `float`, the withdrawn agent is keyed by NaN itself (the
`else -1` fallback of the key function is dead code) and Python `max` never
replaces a NaN-keyed current maximum, because every comparison with NaN is
False. -/
theorem C8_counterexample :
    (mkReport 0 [none] []).top_agent = BidKey.agent 0 ∧
    (mkReport 0 [none] []).top_agent ≠ BidKey.round := by
  have h : (mkReport 0 [none] []).top_agent = BidKey.agent 0 :=
    topAgent_first_nan [none] 0 rfl
  refine ⟨h, ?_⟩
  rw [h]
  intro hc
  cases hc

/-- C8 (amended): the `"Round"` entry `r + 1` is inserted into `round_bids`
before the round report is computed, so the candidate list of active bids
always contains the round number: `highest_bid` and `lowest_bid` are never
`None`, and in a round whose agent entries are all NaN both equal `r + 1`.
For `top_agent`, however, `np.nan` is a Python `float`, so a withdrawn agent
is keyed by NaN (the `else -1` branch is dead) and Python `max` keeps a
NaN-keyed current maximum forever: whenever the first agent's entry is NaN,
`top_agent` is `"Agent 1"`; `top_agent` is the `"Round"` key when the first
agent's entry (if any) is numeric and `r + 1` exceeds every recorded numeric
bid.  The never-`None` property holds for every report produced by
`run_simulation` and by the `live_bidding.py` loop. -/
theorem C8_round_entry_in_report :
    (∀ (r : ℕ) (bids : List (Option ℝ)) (w : List ℕ),
        ((mkReport r bids w).highest_bid).isSome = true ∧
        ((mkReport r bids w).lowest_bid).isSome = true) ∧
    (∀ (r : ℕ) (bids : List (Option ℝ)) (w : List ℕ), (∀ b ∈ bids, b = none) →
        (mkReport r bids w).highest_bid = some ((r : ℝ) + 1) ∧
        (mkReport r bids w).lowest_bid = some ((r : ℝ) + 1)) ∧
    (∀ (r : ℕ) (bids : List (Option ℝ)) (w : List ℕ),
        bids.get? 0 = some none →
        (mkReport r bids w).top_agent = BidKey.agent 0) ∧
    (∀ (r : ℕ) (bids : List (Option ℝ)) (w : List ℕ),
        (∀ b, bids.get? 0 = some b → b ≠ none) →
        (∀ b ∈ bids, ∀ x : ℝ, b = some x → x < (r : ℝ) + 1) →
        (mkReport r bids w).top_agent = BidKey.round) ∧
    (∀ (p : Params) (n R : ℕ) (g : RNG),
        ∀ rep ∈ (run_simulation p n R g).round_reports,
          (rep.highest_bid).isSome = true ∧ (rep.lowest_bid).isSome = true) ∧
    (∀ (bv mi ct : ℝ) (k r : ℕ) (states : List AgentState) (g : RNG),
        ∀ rep ∈ (lb_simRounds bv mi ct r k states g).1.reports,
          (rep.highest_bid).isSome = true ∧ (rep.lowest_bid).isSome = true) := by
  refine ⟨?_, ?_, ?_, ?_, ?_, ?_⟩
  · intro r bids w
    exact ⟨mkReport_highest_isSome r bids w, mkReport_lowest_isSome r bids w⟩
  · intro r bids w h
    exact mkReport_all_none r bids w h
  · intro r bids w h
    exact topAgent_first_nan bids r h
  · intro r bids w hfirst h
    exact topAgent_round bids r hfirst h
  · intro p n R g rep hrep
    exact simRounds_reports_isSome p n R 0 (List.replicate n ⟨true, 0, 0, 0⟩) g rep hrep
  · intro bv mi ct k r states g rep hrep
    exact lb_simRounds_reports_isSome bv mi ct k r states g rep hrep

/-- Witness for C8: the round-wins clause at round 0 with a single active
agent whose bid 1/2 is below the round number 1. -/
theorem C8_witness : (mkReport 0 [some (1 / 2 : ℝ)] []).top_agent = BidKey.round :=
  C8_round_entry_in_report.2.2.2.1 0 [some (1 / 2 : ℝ)] []
    (by
      intro b hb
      have hb' : some (1 / 2 : ℝ) = b := by simpa using hb
      rw [← hb']
      exact fun hc => Option.noConfusion hc)
    (by
      intro b hb x hx
      have hb' : b = some (1 / 2 : ℝ) := by simpa using hb
      subst hb'
      have hx' : (1 / 2 : ℝ) = x := by simpa using hx
      rw [← hx']
      norm_num)

/-- C9: withdrawal is permanent.  A withdrawing agent turn sets the active
flag to false; and starting from any state in which agent `j` is inactive,
every remaining round — in `run_simulation` and in the `live_bidding.py`
loop — records NaN for that agent while its profit, CVaR and activity
accumulators stay exactly as they were; the agent never re-enters bidding. -/
theorem C9_withdrawal_permanent :
    (∀ (p : Params) (lam : ℝ) (s : AgentState) (g : RNG),
        (agentStep p lam s g).withdrew = true →
        (agentStep p lam s g).state.active = false) ∧
    (∀ (p : Params) (n k r : ℕ) (states : List AgentState) (g : RNG)
        (j : ℕ) (a : AgentState),
        states.get? j = some a → a.active = false →
        (simRounds p n r k states g).1.states.get? j = some a ∧
        ∀ row ∈ (simRounds p n r k states g).1.bidsRows, row.get? j = some none) ∧
    (∀ (bv mi ct : ℝ) (k r : ℕ) (states : List AgentState) (g : RNG)
        (j : ℕ) (a : AgentState),
        states.get? j = some a → a.active = false →
        (lb_simRounds bv mi ct r k states g).1.states.get? j = some a ∧
        ∀ row ∈ (lb_simRounds bv mi ct r k states g).1.bidsRows, row.get? j = some none) := by
  refine ⟨?_, ?_, ?_⟩
  · intro p lam s g hw
    by_cases h1 : s.active = true
    · by_cases h2 : (npRand g).1 < p.bid_volatility * (1 - p.cvar_target) / 2
      · simp [agentStep, h1, h2]
      · simp [agentStep, h1, h2] at hw
    · rw [agentStep_inactive p lam s g (by simpa using h1)] at hw
      exact Bool.noConfusion hw
  · intro p n k r states g j a hj ha
    exact simRounds_inactive p n k r states g j a hj ha
  · intro bv mi ct k r states g j a hj ha
    exact lb_simRounds_inactive bv mi ct k r states g j a hj ha

/-- Witness for C9: two rounds starting from a single inactive agent leave
its state untouched. -/
theorem C9_witness : (simRounds pEx 1 0 2 [aEx] gEx).1.states.get? 0 = some aEx :=
  (C9_withdrawal_permanent.2.1 pEx 1 2 0 [aEx] gEx 0 aEx rfl rfl).1

/-- C10: each agent's activity count rises by at most one per round and never
falls, so for `n_rounds >= 1` every ActivityRate in the returned summary lies
in the closed interval [0, 1] (the range assumed by the activity color map);
the same holds for every positional read with an out-of-range default. -/
theorem C10_activity_rate_in_unit_interval (p : Params) (n R : ℕ) (g : RNG) (hR : 1 ≤ R) :
    (∀ row ∈ (run_simulation p n R g).summary,
        0 ≤ row.activityRate ∧ row.activityRate ≤ 1) ∧
    (∀ i : ℕ,
        0 ≤ ((run_simulation p n R g).summary.getD i ⟨0, 0, 0⟩).activityRate ∧
        ((run_simulation p n R g).summary.getD i ⟨0, 0, 0⟩).activityRate ≤ 1) := by
  have hRpos : (0 : ℝ) < R := by exact_mod_cast hR
  have hmem : ∀ row ∈ (run_simulation p n R g).summary,
      0 ≤ row.activityRate ∧ row.activityRate ≤ 1 := by
    intro row hrow
    have hrow' : row ∈ (simRounds p n 0 R (List.replicate n ⟨true, 0, 0, 0⟩) g).1.states.map
        (fun s => (⟨s.profit, s.cvar, s.activity / (R : ℝ)⟩ : SummaryRow)) := hrow
    rcases List.mem_map.mp hrow' with ⟨s, hs, rfl⟩
    rcases forall2_mem_right (simRounds_rel p n R 0 _ g) s hs with ⟨a, ha, hrel⟩
    have ha0 : a = ⟨true, 0, 0, 0⟩ := List.eq_of_mem_replicate ha
    obtain ⟨_, h2, h3, _⟩ := hrel
    rw [ha0] at h2 h3
    have h2' : (0 : ℝ) ≤ s.activity := h2
    have h3' : s.activity ≤ (R : ℝ) := by simpa using h3
    constructor
    · show 0 ≤ s.activity / (R : ℝ)
      exact div_nonneg h2' (le_of_lt hRpos)
    · show s.activity / (R : ℝ) ≤ 1
      rw [div_le_one hRpos]
      exact h3'
  refine ⟨hmem, ?_⟩
  intro i
  exact getD_pred (fun srow => 0 ≤ srow.activityRate ∧ srow.activityRate ≤ 1)
    ((run_simulation p n R g).summary) ⟨0, 0, 0⟩ hmem ⟨le_rfl, by norm_num⟩ i

/-- Witness for C10 at the concrete inputs `pEx`, 1 agent, 2 rounds, `gEx`. -/
theorem C10_witness :
    0 ≤ ((run_simulation pEx 1 2 gEx).summary.getD 0 ⟨0, 0, 0⟩).activityRate ∧
    ((run_simulation pEx 1 2 gEx).summary.getD 0 ⟨0, 0, 0⟩).activityRate ≤ 1 :=
  (C10_activity_rate_in_unit_interval pEx 1 2 gEx (by norm_num)).2 0
